import Mathlib

/-!
Verification of the factotum factfile ingestion pipeline
(`src/factotum/parser/mod.rs`).

The Rust source is shallowly embedded below.  External collaborators that
are not part of the parser module — the schema validator, the JSON
decoder/encoder of the `rustc_serialize` library, the template engine
(`templater` module) and the task graph (`factfile` module) — are either
taken as function parameters or modelled from the specification, as
indicated on each definition.
-/

namespace FactotumParser

/-- A substitution context: a flat mapping of placeholder names to
replacement strings (the `env : Option<Json>` argument of `parse`). -/
abbrev SubstitutionContext := List (String × String)

/-- Modelled from the spec: the scanner of the template engine
(`templater::decorate_str`, a module of this repository that is not under
`src/`).  It walks the character list left to right; outside a placeholder
(`mode = none`) a literal `${` switches to key-collection mode, any other
character is copied; inside a placeholder (`mode = some acc`) characters are
accumulated until `}`, at which point the key is looked up in the context —
substituting the value verbatim (single pass, no re-expansion) or failing
when the key is absent.  An unclosed placeholder at the end of the text is
kept as literal text. -/
def scanAux (ctx : SubstitutionContext) : Option (List Char) → List Char → Except String (List Char)
  | none, [] => .ok []
  | none, '$' :: '{' :: cs => scanAux ctx (some []) cs
  | none, c :: cs => (scanAux ctx none cs).map (fun t => c :: t)
  | some acc, [] => .ok ('$' :: '{' :: acc.reverse)
  | some acc, '}' :: cs =>
    match List.lookup (String.mk acc.reverse) ctx with
    | some v => (scanAux ctx none cs).map (fun t => v.data ++ t)
    | none => .error ("variable '" ++ String.mk acc.reverse ++ "' is not defined")
  | some acc, c :: cs => scanAux ctx (some (c :: acc)) cs

/-- Modelled from the spec: `templater::decorate_str` — resolves `${name}`
placeholders in `text` against the substitution context. -/
def decorate_str (text : String) (ctx : SubstitutionContext) : Except String String :=
  (scanAux ctx none text.data).map String.mk

/-- Modelled from the spec: one task record as held by the external task
graph (`factfile::Factfile`).  Field order follows the `add_task`
argument order of the source call site. -/
structure FactfileTask where
  name : String
  depends_on : List String
  executor : String
  command : String
  arguments : List String
  terminate_mappings : List Int
  continue_mappings : List Int
  deriving DecidableEq

/-- Modelled from the spec: the external task graph, constructible from
`(canonical_text, name)` and accumulating validated tasks. -/
structure Factfile where
  raw : String
  name : String
  tasks : List FactfileTask
  deriving DecidableEq

/-- Modelled from the spec: `Factfile::new(compact_json, name)` — an empty
graph carrying the canonical text and the job name. -/
def Factfile.new (raw name : String) : Factfile := ⟨raw, name, []⟩

/-- Modelled from the spec: the graph's `add_task` admission contract.  A
task is accepted only if its name is unique within the graph and every
dependency names a task already known to the graph; a rejection leaves the
graph unchanged and reports a message.  The pair carries both the
(possibly updated) graph and the contract's verdict, because the caller in
`parse_valid_json` discards the verdict (the source calls `ff.add_task(...)`
in statement position, see the `TODO errs in here` comment there). -/
def Factfile.add_task (ff : Factfile) (name : String) (deps : List String)
    (executor command : String) (args : List String)
    (terminate_m continue_m : List Int) : Factfile × Except String Unit :=
  if ff.tasks.any (fun t => t.name == name) then
    (ff, .error ("the task '" ++ name ++ "' is already defined"))
  else if deps.any (fun d => !(ff.tasks.any (fun t => t.name == d))) then
    (ff, .error ("the task '" ++ name ++ "' has an unknown dependency"))
  else
    ({ ff with tasks := ff.tasks ++ [⟨name, deps, executor, command, args, terminate_m, continue_m⟩] },
     .ok ())

/-- `TaskReturnCodeMapping` of the source: a caller-supplied pair of
exit-code lists. -/
structure TaskReturnCodeMapping where
  continue_job : List Int
  terminate_early : List Int
  deriving DecidableEq

/-- `OverrideResultMappings` of the source: either force one mapping onto
every task, or use each task's own `onResult`. -/
inductive OverrideResultMappings where
  | All : TaskReturnCodeMapping → OverrideResultMappings
  | None : OverrideResultMappings
  deriving DecidableEq

/-- `FactfileTaskResultFormat` of the source. -/
structure FactfileTaskResultFormat where
  terminateJobWithSuccess : List Int
  continueJob : List Int
  deriving DecidableEq

/-- `FactfileTaskFormat` of the source. -/
structure FactfileTaskFormat where
  name : String
  executor : String
  command : String
  arguments : List String
  dependsOn : List String
  onResult : FactfileTaskResultFormat
  deriving DecidableEq

/-- `FactfileFormat` of the source. -/
structure FactfileFormat where
  name : String
  tasks : List FactfileTaskFormat
  deriving DecidableEq

/-- `SelfDescribingJson` of the source. -/
structure SelfDescribingJson where
  schema : String
  data : FactfileFormat
  deriving DecidableEq

/-- The error text of the empty-continuation check in `parse_valid_json`. -/
def emptyMsg (name : String) : String :=
  "the task '" ++ name ++ "' has no way to continue successfully."

/-- The error text of the conflicting-actions check in `parse_valid_json`. -/
def conflictMsg (name : String) : String :=
  "the task '" ++ name ++ "' has conflicting actions."

/-- The `if let Some(ref subs) = conf` pattern of the source: decorate when a
context is present, copy verbatim otherwise. -/
def decorateOpt (conf : Option SubstitutionContext) (s : String) : Except String String :=
  match conf with
  | some subs => decorate_str s subs
  | none => .ok s

/-- The nested conflict loop of `parse_valid_json`: some declared
`continueJob` code also appears in `terminateJobWithSuccess`. -/
def hasConflictB (t : FactfileTaskFormat) : Bool :=
  t.onResult.continueJob.any (fun cont =>
    t.onResult.terminateJobWithSuccess.any (fun conflict => conflict == cont))

/-- Decorates each string of a list in order, stopping at the first
failure (the `for arg in ...` push loops of the source). -/
def mapDecorate (subs : SubstitutionContext) : List String → Except String (List String)
  | [] => .ok []
  | s :: rest =>
    match decorate_str s subs with
    | .error e => .error e
    | .ok d =>
      match mapDecorate subs rest with
      | .error e => .error e
      | .ok ds => .ok (d :: ds)

/-- The `if let Some(ref subs) = conf` block of the loop body: decorate the
command (its decorated value is logged but otherwise unused — only its
error propagates), then every argument, then every dependency; with no
context, the arguments and dependencies are copied verbatim.  Returns the
`(decorated_args, decorated_deps)` pair that the source builds. -/
def decorateCmdArgsDeps (conf : Option SubstitutionContext) (ft : FactfileTaskFormat) :
    Except String (List String × List String) :=
  match conf with
  | some subs =>
    match decorate_str ft.command subs with
    | .error e => .error e
    | .ok _decorated_command =>
      match mapDecorate subs ft.arguments with
      | .error e => .error e
      | .ok decorated_args =>
        match mapDecorate subs ft.dependsOn with
        | .error e => .error e
        | .ok decorated_deps => .ok (decorated_args, decorated_deps)
  | none => .ok (ft.arguments, ft.dependsOn)

/-- The `match overrides` of the source: `(terminate_mappings, continue_mappings)`. -/
def resolveMappings (overrides : OverrideResultMappings) (ft : FactfileTaskFormat) :
    List Int × List Int :=
  match overrides with
  | .All with_value => (with_value.terminate_early, with_value.continue_job)
  | .None => (ft.onResult.terminateJobWithSuccess, ft.onResult.continueJob)

/-- The `for file_task in decoded_json.tasks.iter()` loop of
`parse_valid_json`: per task, decorate the name, reject an empty
`continueJob`, reject intersecting exit-code sets, decorate command /
arguments / dependencies, pick the exit-code mappings, and call the
graph's `add_task` — whose verdict the source discards (`.1`), passing the
*undecorated* `file_task.command` as the command. -/
def processTasks (conf : Option SubstitutionContext) (overrides : OverrideResultMappings) :
    Factfile → List FactfileTaskFormat → Except String Factfile
  | ff, [] => .ok ff
  | ff, file_task :: rest =>
    match decorateOpt conf file_task.name with
    | .error e => .error e
    | .ok final_name =>
      if file_task.onResult.continueJob.length = 0 then
        .error (emptyMsg final_name)
      else if hasConflictB file_task then
        .error (conflictMsg final_name)
      else
        match decorateCmdArgsDeps conf file_task with
        | .error e => .error e
        | .ok (args, deps) =>
          processTasks conf overrides
            ((ff.add_task final_name deps file_task.executor file_task.command args
              (resolveMappings overrides file_task).1
              (resolveMappings overrides file_task).2).1) rest

/-- `parse_valid_json` of the source.  `dec` stands for the external
`json::decode` and `enc` for `json::encode` of the `rustc_serialize`
library (both taken as parameters, abstract collaborators): decode the
envelope, re-encode it to compact canonical text, decorate the canonical
text and the job name when a context is present, then process the tasks in
document order starting from an empty graph. -/
def parse_valid_json (dec : String → Except String SelfDescribingJson)
    (enc : SelfDescribingJson → Except String String)
    (file : String) (conf : Option SubstitutionContext)
    (overrides : OverrideResultMappings) : Except String Factfile :=
  match dec file with
  | .error e => .error e
  | .ok schema =>
    match enc schema with
    | .error e => .error e
    | .ok compact_json =>
      match decorateOpt conf compact_json with
      | .error e => .error e
      | .ok final_compact_json =>
        match decorateOpt conf schema.data.name with
        | .error e => .error e
        | .ok final_dag_name =>
          processTasks conf overrides (Factfile.new final_compact_json final_dag_name)
            schema.data.tasks

/-- `parse_str` of the source.  `validate` stands for the external schema
validator (`schemavalidator::validate_against_factfile_schema`): on a
schema pass, any error of `parse_valid_json` is wrapped; on a schema
failure, the diagnostic is wrapped the same way. -/
def parse_str (validate : String → Except String Unit)
    (dec : String → Except String SelfDescribingJson)
    (enc : SelfDescribingJson → Except String String)
    (json : String) (from_filename : String)
    (env : Option SubstitutionContext) (overrides : OverrideResultMappings) :
    Except String Factfile :=
  match validate json with
  | .ok _ =>
    match parse_valid_json dec enc json env overrides with
    | .ok ff => .ok ff
    | .error msg =>
      .error ("'" ++ from_filename ++ "' is not a valid factotum factfile: " ++ msg)
  | .error msg =>
    .error ("'" ++ from_filename ++ "' is not a valid factotum factfile: " ++ msg)

/-- A task descriptor whose declared policy passes both checks of
`parse_valid_json`: a non-empty `continueJob`, disjoint from
`terminateJobWithSuccess`. -/
def policyValidB (t : FactfileTaskFormat) : Bool :=
  !(t.onResult.continueJob.length == 0) && !(hasConflictB t)

/-- The decorated names of a list of task descriptors, in order. -/
def decorateNames (conf : Option SubstitutionContext) :
    List FactfileTaskFormat → Except String (List String)
  | [] => .ok []
  | ft :: rest =>
    match decorateOpt conf ft.name with
    | .error e => .error e
    | .ok n =>
      match decorateNames conf rest with
      | .error e => .error e
      | .ok ns => .ok (n :: ns)

/-! ### Helper lemmas -/

theorem decorateOpt_none (s : String) : decorateOpt none s = .ok s := rfl

theorem decorateCmdArgsDeps_none (ft : FactfileTaskFormat) :
    decorateCmdArgsDeps none ft = .ok (ft.arguments, ft.dependsOn) := rfl

theorem resolveMappings_all (m : TaskReturnCodeMapping) (ft : FactfileTaskFormat) :
    resolveMappings (.All m) ft = (m.terminate_early, m.continue_job) := rfl

theorem policyValidB_true {t : FactfileTaskFormat} (h : policyValidB t = true) :
    ¬t.onResult.continueJob.length = 0 ∧ hasConflictB t = false := by
  simp only [policyValidB, Bool.and_eq_true, Bool.not_eq_true', beq_eq_false_iff_ne,
    ne_eq] at h
  exact h

theorem policyValidB_false {t : FactfileTaskFormat} (h : policyValidB t = false) :
    t.onResult.continueJob.length = 0 ∨ hasConflictB t = true := by
  by_cases h0 : t.onResult.continueJob.length = 0
  · exact Or.inl h0
  · right
    by_contra hc
    have : policyValidB t = true := by
      simp only [policyValidB, Bool.and_eq_true, Bool.not_eq_true', beq_eq_false_iff_ne,
        ne_eq]
      exact ⟨h0, by simpa using hc⟩
    simp [this] at h

theorem hasConflictB_length {t : FactfileTaskFormat} (h : hasConflictB t = true) :
    ¬t.onResult.continueJob.length = 0 := by
  intro hlen
  rw [List.length_eq_zero] at hlen
  simp [hasConflictB, hlen] at h

theorem add_task_fst_cases (ff : Factfile) (n : String) (deps : List String)
    (ex cmd : String) (args : List String) (te cj : List Int) :
    (ff.add_task n deps ex cmd args te cj).1 = ff ∨
    (ff.add_task n deps ex cmd args te cj).1 =
      { ff with tasks := ff.tasks ++ [⟨n, deps, ex, cmd, args, te, cj⟩] } := by
  unfold Factfile.add_task
  split
  · exact Or.inl rfl
  · split
    · exact Or.inl rfl
    · exact Or.inr rfl

theorem add_task_fst_raw (ff : Factfile) (n : String) (deps : List String)
    (ex cmd : String) (args : List String) (te cj : List Int) :
    (ff.add_task n deps ex cmd args te cj).1.raw = ff.raw ∧
    (ff.add_task n deps ex cmd args te cj).1.name = ff.name := by
  rcases add_task_fst_cases ff n deps ex cmd args te cj with h | h <;>
    (rw [h]; exact ⟨rfl, rfl⟩)

theorem processTasks_raw_name {conf : Option SubstitutionContext}
    {ov : OverrideResultMappings} :
    ∀ (tasks : List FactfileTaskFormat) (acc ff : Factfile),
      processTasks conf ov acc tasks = .ok ff → ff.raw = acc.raw ∧ ff.name = acc.name := by
  intro tasks
  induction tasks with
  | nil =>
    intro acc ff h
    simp only [processTasks] at h
    cases h
    exact ⟨rfl, rfl⟩
  | cons ft rest ih =>
    intro acc ff h
    simp only [processTasks] at h
    split at h
    · cases h
    · split at h
      · cases h
      · split at h
        · cases h
        · split at h
          · cases h
          · have hrec := ih _ _ h
            exact ⟨hrec.1.trans (add_task_fst_raw _ _ _ _ _ _ _ _).1,
                   hrec.2.trans (add_task_fst_raw _ _ _ _ _ _ _ _).2⟩

theorem processTasks_none_cons (ov : OverrideResultMappings) (acc : Factfile)
    (ft : FactfileTaskFormat) (rest : List FactfileTaskFormat) :
    processTasks none ov acc (ft :: rest) =
      if ft.onResult.continueJob.length = 0 then .error (emptyMsg ft.name)
      else if hasConflictB ft then .error (conflictMsg ft.name)
      else
        processTasks none ov
          ((acc.add_task ft.name ft.dependsOn ft.executor ft.command ft.arguments
            (resolveMappings ov ft).1 (resolveMappings ov ft).2).1) rest := rfl

theorem processTasks_none_cons_valid (ov : OverrideResultMappings) (acc : Factfile)
    (ft : FactfileTaskFormat) (rest : List FactfileTaskFormat)
    (h : policyValidB ft = true) :
    processTasks none ov acc (ft :: rest) =
      processTasks none ov
        ((acc.add_task ft.name ft.dependsOn ft.executor ft.command ft.arguments
          (resolveMappings ov ft).1 (resolveMappings ov ft).2).1) rest := by
  obtain ⟨h0, hc⟩ := policyValidB_true h
  rw [processTasks_none_cons, if_neg h0, if_neg (by simp [hc])]

theorem processTasks_first_invalid {ov : OverrideResultMappings}
    (t : FactfileTaskFormat) (post : List FactfileTaskFormat)
    (hbad : policyValidB t = false) :
    ∀ (pre : List FactfileTaskFormat), (∀ u ∈ pre, policyValidB u = true) →
    ∀ acc, processTasks none ov acc (pre ++ t :: post) =
      .error (if t.onResult.continueJob.length = 0 then emptyMsg t.name
              else conflictMsg t.name) := by
  intro pre
  induction pre with
  | nil =>
    intro _ acc
    rw [List.nil_append, processTasks_none_cons]
    rcases policyValidB_false hbad with h0 | hc
    · rw [if_pos h0, if_pos h0]
    · have h0 := hasConflictB_length hc
      rw [if_neg h0, if_neg h0, if_pos hc]
  | cons u pre ih =>
    intro hval acc
    rw [List.cons_append, processTasks_none_cons_valid _ _ _ _ (hval u (by simp))]
    exact ih (fun v hv => hval v (by simp [hv])) _

theorem processTasks_none_ok {ov : OverrideResultMappings} :
    ∀ (tasks : List FactfileTaskFormat), (∀ t ∈ tasks, policyValidB t = true) →
    ∀ acc, ∃ ff, processTasks none ov acc tasks = .ok ff := by
  intro tasks
  induction tasks with
  | nil => exact fun _ acc => ⟨acc, rfl⟩
  | cons ft rest ih =>
    intro hval acc
    rw [processTasks_none_cons_valid _ _ _ _ (hval ft (by simp))]
    exact ih (fun v hv => hval v (by simp [hv])) _

theorem processTasks_none_error {ov : OverrideResultMappings} :
    ∀ (tasks : List FactfileTaskFormat) (acc : Factfile) (msg : String),
      processTasks none ov acc tasks = .error msg →
      ∃ t ∈ tasks, msg = emptyMsg t.name ∨ msg = conflictMsg t.name := by
  intro tasks
  induction tasks with
  | nil => intro acc msg h; cases h
  | cons ft rest ih =>
    intro acc msg h
    rw [processTasks_none_cons] at h
    by_cases h0 : ft.onResult.continueJob.length = 0
    · rw [if_pos h0] at h
      cases h
      exact ⟨ft, by simp, Or.inl rfl⟩
    · rw [if_neg h0] at h
      by_cases hc : hasConflictB ft = true
      · rw [if_pos hc] at h
        cases h
        exact ⟨ft, by simp, Or.inr rfl⟩
      · rw [if_neg hc] at h
        obtain ⟨t, ht, hmsg⟩ := ih _ _ h
        exact ⟨t, by simp [ht], hmsg⟩

theorem processTasks_none_fields {ov : OverrideResultMappings} :
    ∀ (tasks : List FactfileTaskFormat) (acc ff : Factfile),
      processTasks none ov acc tasks = .ok ff →
      ∀ gt ∈ ff.tasks, gt ∈ acc.tasks ∨
        ∃ dt ∈ tasks, gt.name = dt.name ∧ gt.executor = dt.executor ∧
          gt.command = dt.command ∧ gt.arguments = dt.arguments ∧
          gt.depends_on = dt.dependsOn := by
  intro tasks
  induction tasks with
  | nil =>
    intro acc ff h gt hgt
    cases h
    exact Or.inl hgt
  | cons ft rest ih =>
    intro acc ff h gt hgt
    rw [processTasks_none_cons] at h
    split at h
    · cases h
    · split at h
      · cases h
      · rcases ih _ _ h gt hgt with hin | ⟨dt, hdt, hf⟩
        · rcases add_task_fst_cases acc ft.name ft.dependsOn ft.executor ft.command
            ft.arguments (resolveMappings ov ft).1 (resolveMappings ov ft).2 with hc | hc
          · rw [hc] at hin
            exact Or.inl hin
          · rw [hc] at hin
            rcases List.mem_append.mp hin with h1 | h1
            · exact Or.inl h1
            · right
              refine ⟨ft, by simp, ?_⟩
              rw [List.mem_singleton.mp h1]
              exact ⟨rfl, rfl, rfl, rfl, rfl⟩
        · exact Or.inr ⟨dt, by simp [hdt], hf⟩

theorem processTasks_cons (conf : Option SubstitutionContext) (ov : OverrideResultMappings)
    (acc : Factfile) (ft : FactfileTaskFormat) (rest : List FactfileTaskFormat) :
    processTasks conf ov acc (ft :: rest) =
      match decorateOpt conf ft.name with
      | .error e => .error e
      | .ok final_name =>
        if ft.onResult.continueJob.length = 0 then .error (emptyMsg final_name)
        else if hasConflictB ft then .error (conflictMsg final_name)
        else
          match decorateCmdArgsDeps conf ft with
          | .error e => .error e
          | .ok (args, deps) =>
            processTasks conf ov
              ((acc.add_task final_name deps ft.executor ft.command args
                (resolveMappings ov ft).1 (resolveMappings ov ft).2).1) rest := rfl

theorem add_task_fst_mem {ff : Factfile} {n : String} {deps : List String}
    {ex cmd : String} {args : List String} {te cj : List Int} {gt : FactfileTask}
    (h : gt ∈ (ff.add_task n deps ex cmd args te cj).1.tasks) :
    gt ∈ ff.tasks ∨ gt = ⟨n, deps, ex, cmd, args, te, cj⟩ := by
  rcases add_task_fst_cases ff n deps ex cmd args te cj with hc | hc <;> rw [hc] at h
  · exact Or.inl h
  · rcases List.mem_append.mp h with h1 | h1
    · exact Or.inl h1
    · exact Or.inr (List.mem_singleton.mp h1)

theorem processTasks_invalid {conf : Option SubstitutionContext}
    {ov : OverrideResultMappings} :
    ∀ (tasks : List FactfileTaskFormat), (∃ t ∈ tasks, policyValidB t = false) →
    ∀ acc, ∃ msg, processTasks conf ov acc tasks = .error msg := by
  intro tasks
  induction tasks with
  | nil =>
    rintro ⟨t, ht, _⟩
    simp at ht
  | cons ft rest ih =>
    rintro ⟨t, ht, hbad⟩ acc
    cases hd : decorateOpt conf ft.name with
    | error e => exact ⟨e, by simp [processTasks_cons, hd]⟩
    | ok fn =>
      rcases List.mem_cons.mp ht with rfl | htr
      · rcases policyValidB_false hbad with h0 | hc
        · exact ⟨emptyMsg fn, by simp [processTasks_cons, hd, h0]⟩
        · have h0 := hasConflictB_length hc
          exact ⟨conflictMsg fn, by simp [processTasks_cons, hd, h0, hc]⟩
      · by_cases h0 : ft.onResult.continueJob.length = 0
        · exact ⟨emptyMsg fn, by simp [processTasks_cons, hd, h0]⟩
        · by_cases hc : hasConflictB ft = true
          · exact ⟨conflictMsg fn, by simp [processTasks_cons, hd, h0, hc]⟩
          · cases hcd : decorateCmdArgsDeps conf ft with
            | error e => exact ⟨e, by simp [processTasks_cons, hd, h0, hc, hcd]⟩
            | ok p =>
              obtain ⟨args, deps⟩ := p
              obtain ⟨msg, hmsg⟩ := ih ⟨t, htr, hbad⟩
                ((acc.add_task fn deps ft.executor ft.command args
                  (resolveMappings ov ft).1 (resolveMappings ov ft).2).1)
              refine ⟨msg, ?_⟩
              simp only [processTasks_cons, hd, hcd]
              rw [if_neg h0, if_neg hc]
              exact hmsg

theorem processTasks_all_mappings (m : TaskReturnCodeMapping)
    {conf : Option SubstitutionContext} :
    ∀ (tasks : List FactfileTaskFormat) (acc ff : Factfile),
      processTasks conf (.All m) acc tasks = .ok ff →
      (∀ gt ∈ acc.tasks, gt.terminate_mappings = m.terminate_early ∧
        gt.continue_mappings = m.continue_job) →
      ∀ gt ∈ ff.tasks, gt.terminate_mappings = m.terminate_early ∧
        gt.continue_mappings = m.continue_job := by
  intro tasks
  induction tasks with
  | nil =>
    intro acc ff h hacc
    cases h
    exact hacc
  | cons ft rest ih =>
    intro acc ff h hacc
    simp only [processTasks] at h
    split at h
    · cases h
    · split at h
      · cases h
      · split at h
        · cases h
        · split at h
          · cases h
          · refine ih _ _ h ?_
            intro gt hgt
            rcases add_task_fst_mem hgt with h1 | h1
            · exact hacc gt h1
            · rw [h1]
              exact ⟨rfl, rfl⟩

theorem processTasks_sublist {conf : Option SubstitutionContext}
    {ov : OverrideResultMappings} :
    ∀ (tasks : List FactfileTaskFormat) (acc ff : Factfile) (names : List String),
      processTasks conf ov acc tasks = .ok ff →
      decorateNames conf tasks = .ok names →
      ∃ added, ff.tasks = acc.tasks ++ added ∧
        (added.map FactfileTask.name).Sublist names := by
  intro tasks
  induction tasks with
  | nil =>
    intro acc ff names h hn
    cases h
    cases hn
    exact ⟨[], by simp, by simp⟩
  | cons ft rest ih =>
    intro acc ff names h hn
    simp only [processTasks] at h
    split at h
    · cases h
    · rename_i fn heq
      simp only [decorateNames, heq] at hn
      split at hn
      · cases hn
      · rename_i ns hns
        cases hn
        split at h
        · cases h
        · split at h
          · cases h
          · split at h
            · cases h
            · rename_i args deps hcd
              obtain ⟨added, h1, h2⟩ := ih _ _ _ h hns
              rcases add_task_fst_cases acc fn deps ft.executor ft.command args
                ((resolveMappings ov ft).1) ((resolveMappings ov ft).2) with hc | hc
              · rw [hc] at h1
                exact ⟨added, h1, List.Sublist.cons fn h2⟩
              · rw [hc] at h1
                refine ⟨(⟨fn, deps, ft.executor, ft.command, args,
                  (resolveMappings ov ft).1, (resolveMappings ov ft).2⟩ : FactfileTask)
                    :: added, ?_, ?_⟩
                · rw [h1, List.append_assoc]
                  rfl
                · simp only [List.map_cons]
                  exact List.Sublist.cons₂ fn h2

theorem parse_valid_json_ok_eq {dec : String → Except String SelfDescribingJson}
    {enc : SelfDescribingJson → Except String String} {file : String}
    {e : SelfDescribingJson} {compact : String}
    (hdec : dec file = .ok e) (henc : enc e = .ok compact)
    (conf : Option SubstitutionContext) (ov : OverrideResultMappings) :
    parse_valid_json dec enc file conf ov =
      match decorateOpt conf compact with
      | .error er => .error er
      | .ok fc =>
        match decorateOpt conf e.data.name with
        | .error er => .error er
        | .ok fn => processTasks conf ov (Factfile.new fc fn) e.data.tasks := by
  simp only [parse_valid_json, hdec, henc]

theorem parse_valid_json_none_eq {dec : String → Except String SelfDescribingJson}
    {enc : SelfDescribingJson → Except String String} {file : String}
    {e : SelfDescribingJson} {compact : String}
    (hdec : dec file = .ok e) (henc : enc e = .ok compact)
    (ov : OverrideResultMappings) :
    parse_valid_json dec enc file none ov =
      processTasks none ov (Factfile.new compact e.data.name) e.data.tasks := by
  simp only [parse_valid_json, hdec, henc, decorateOpt]

/-! ### Claim theorems -/

/-- C1: the claim says the resolved (substituted) command is what a task
carries in the output graph.  The code decorates the command but passes the
*undecorated* `file_task.command` to `add_task`: with context
`env = prod`, the task built from command `run ${env}` carries
`run ${env}` in the graph even though templating resolves it to
`run prod`. -/
theorem command_not_templated_in_graph :
    parse_valid_json
      (fun _ => .ok ⟨"sch", ⟨"job", [⟨"t1", "shell", "run ${env}", [], [], ⟨[], [0]⟩⟩]⟩⟩)
      (fun _ => .ok "canonical") "raw" (some [("env", "prod")]) .None
      = .ok ⟨"canonical", "job", [⟨"t1", [], "shell", "run ${env}", [], [], [0]⟩]⟩ ∧
    decorate_str "run ${env}" [("env", "prod")] = .ok "run prod" ∧
    ("run ${env}" : String) ≠ "run prod" :=
  ⟨rfl, rfl, by decide⟩

/-- C2: the claim says a graph rejection makes `parse` fail with the
graph's message.  The source discards the verdict of `add_task`: on a
document with two tasks both named `t1`, the second submission is rejected
by the graph's admission contract, yet `parse_valid_json` still returns a
completed graph (holding only the first task). -/
theorem graph_rejection_not_propagated :
    parse_valid_json
      (fun _ => .ok ⟨"sch", ⟨"job",
        [⟨"t1", "shell", "a", [], [], ⟨[], [0]⟩⟩,
         ⟨"t1", "shell", "b", [], [], ⟨[], [0]⟩⟩]⟩⟩)
      (fun _ => .ok "canonical") "raw" none .None
      = .ok ⟨"canonical", "job", [⟨"t1", [], "shell", "a", [], [], [0]⟩]⟩ ∧
    (Factfile.add_task ⟨"canonical", "job", [⟨"t1", [], "shell", "a", [], [], [0]⟩]⟩
      "t1" [] "shell" "b" [] [] [0]).2
      = .error "the task 't1' is already defined" :=
  ⟨rfl, rfl⟩

/-- C3: a task whose `continueJob` and `terminateJobWithSuccess` sets
intersect makes `parse_valid_json` fail for every context and override;
and when the preceding tasks are policy-valid (no substitution context),
the error is exactly the conflicting-actions message naming that task. -/
theorem conflicting_policy_rejected
    (dec : String → Except String SelfDescribingJson)
    (enc : SelfDescribingJson → Except String String)
    (file : String) (conf : Option SubstitutionContext) (ov : OverrideResultMappings)
    (e : SelfDescribingJson) (compact : String)
    (pre post : List FactfileTaskFormat) (t : FactfileTaskFormat)
    (hdec : dec file = .ok e)
    (hsplit : e.data.tasks = pre ++ t :: post)
    (hconf : hasConflictB t = true)
    (hpre : ∀ u ∈ pre, policyValidB u = true)
    (henc : enc e = .ok compact) :
    (∃ msg, parse_valid_json dec enc file conf ov = .error msg) ∧
    parse_valid_json dec enc file none ov = .error (conflictMsg t.name) := by
  constructor
  · rw [parse_valid_json_ok_eq hdec henc]
    cases hdc : decorateOpt conf compact with
    | error er => exact ⟨er, by simp only [hdc]⟩
    | ok fc =>
      cases hdn : decorateOpt conf e.data.name with
      | error er => exact ⟨er, by simp only [hdc, hdn]⟩
      | ok fn =>
        have hinv : ∃ u ∈ e.data.tasks, policyValidB u = false := by
          refine ⟨t, by rw [hsplit]; simp, ?_⟩
          simp [policyValidB, hconf]
        obtain ⟨msg, hmsg⟩ := processTasks_invalid e.data.tasks hinv (Factfile.new fc fn)
        exact ⟨msg, by simp only [hdc, hdn]; exact hmsg⟩
  · rw [parse_valid_json_none_eq hdec henc, hsplit,
      processTasks_first_invalid t post (by simp [policyValidB, hconf]) pre hpre _,
      if_neg (hasConflictB_length hconf)]

/-- C4: a task with an empty `continueJob` makes `parse_valid_json` fail
for every context and override (including overrides whose own
`continueJob` is non-empty); and when the preceding tasks are policy-valid
(no substitution context), the error is exactly the
no-way-to-continue message naming that task. -/
theorem empty_continuation_rejected
    (dec : String → Except String SelfDescribingJson)
    (enc : SelfDescribingJson → Except String String)
    (file : String) (conf : Option SubstitutionContext) (ov : OverrideResultMappings)
    (e : SelfDescribingJson) (compact : String)
    (pre post : List FactfileTaskFormat) (t : FactfileTaskFormat)
    (hdec : dec file = .ok e)
    (hsplit : e.data.tasks = pre ++ t :: post)
    (hempty : t.onResult.continueJob = [])
    (hpre : ∀ u ∈ pre, policyValidB u = true)
    (henc : enc e = .ok compact) :
    (∃ msg, parse_valid_json dec enc file conf ov = .error msg) ∧
    parse_valid_json dec enc file none ov = .error (emptyMsg t.name) := by
  constructor
  · rw [parse_valid_json_ok_eq hdec henc]
    cases hdc : decorateOpt conf compact with
    | error er => exact ⟨er, by simp only [hdc]⟩
    | ok fc =>
      cases hdn : decorateOpt conf e.data.name with
      | error er => exact ⟨er, by simp only [hdc, hdn]⟩
      | ok fn =>
        have hinv : ∃ u ∈ e.data.tasks, policyValidB u = false := by
          refine ⟨t, by rw [hsplit]; simp, ?_⟩
          simp [policyValidB, hempty]
        obtain ⟨msg, hmsg⟩ := processTasks_invalid e.data.tasks hinv (Factfile.new fc fn)
        exact ⟨msg, by simp only [hdc, hdn]; exact hmsg⟩
  · rw [parse_valid_json_none_eq hdec henc, hsplit,
      processTasks_first_invalid t post (by simp [policyValidB, hempty]) pre hpre _,
      if_pos (by simp [hempty])]

/-- C5: with override `All m` and a document whose per-task declared
policies are all valid, parsing (with no substitution context) succeeds
and every task of the resulting graph carries exactly the override's
exit-code sets, not its document-declared ones. -/
theorem override_all_precedence
    (dec : String → Except String SelfDescribingJson)
    (enc : SelfDescribingJson → Except String String)
    (file : String) (e : SelfDescribingJson) (compact : String)
    (m : TaskReturnCodeMapping)
    (hdec : dec file = .ok e) (henc : enc e = .ok compact)
    (hvalid : ∀ t ∈ e.data.tasks, policyValidB t = true) :
    ∃ ff, parse_valid_json dec enc file none (.All m) = .ok ff ∧
      ∀ gt ∈ ff.tasks, gt.terminate_mappings = m.terminate_early ∧
        gt.continue_mappings = m.continue_job := by
  rw [parse_valid_json_none_eq hdec henc]
  obtain ⟨ff, hff⟩ := processTasks_none_ok e.data.tasks hvalid
    (Factfile.new compact e.data.name)
  refine ⟨ff, hff, ?_⟩
  refine processTasks_all_mappings m e.data.tasks _ ff hff ?_
  intro gt hgt
  simp [Factfile.new] at hgt

/-- C6: with no substitution context at all, no templating happens: every
failure of `parse_valid_json` is one of the two policy errors naming a
document task (never an undefined-variable error), and on success the
graph's payload, name, and every task's string fields are exactly the
document-declared strings — even when they contain placeholder syntax. -/
theorem no_context_no_templating
    (dec : String → Except String SelfDescribingJson)
    (enc : SelfDescribingJson → Except String String)
    (file : String) (ov : OverrideResultMappings)
    (e : SelfDescribingJson) (compact : String)
    (hdec : dec file = .ok e) (henc : enc e = .ok compact) :
    (∀ msg, parse_valid_json dec enc file none ov = .error msg →
      ∃ dt ∈ e.data.tasks, msg = emptyMsg dt.name ∨ msg = conflictMsg dt.name) ∧
    (∀ ff, parse_valid_json dec enc file none ov = .ok ff →
      ff.raw = compact ∧ ff.name = e.data.name ∧
      ∀ gt ∈ ff.tasks, ∃ dt ∈ e.data.tasks,
        gt.name = dt.name ∧ gt.executor = dt.executor ∧ gt.command = dt.command ∧
        gt.arguments = dt.arguments ∧ gt.depends_on = dt.dependsOn) := by
  rw [parse_valid_json_none_eq hdec henc]
  constructor
  · intro msg h
    exact processTasks_none_error e.data.tasks _ msg h
  · intro ff h
    have hrn := processTasks_raw_name e.data.tasks _ ff h
    refine ⟨hrn.1, hrn.2, ?_⟩
    intro gt hgt
    rcases processTasks_none_fields e.data.tasks _ ff h gt hgt with hin | hf
    · simp [Factfile.new] at hin
    · exact hf

/-- C8: on success the tasks of the output graph are, in order, (a
selection of) the document's task descriptors: the graph's task-name list
is an order-preserving sublist of the document's (resolved) task names, so
the assembler never reorders descriptors. -/
theorem tasks_in_document_order
    (dec : String → Except String SelfDescribingJson)
    (enc : SelfDescribingJson → Except String String)
    (file : String) (conf : Option SubstitutionContext) (ov : OverrideResultMappings)
    (e : SelfDescribingJson) (ff : Factfile) (names : List String)
    (hdec : dec file = .ok e)
    (hnames : decorateNames conf e.data.tasks = .ok names)
    (hok : parse_valid_json dec enc file conf ov = .ok ff) :
    (ff.tasks.map FactfileTask.name).Sublist names := by
  simp only [parse_valid_json, hdec] at hok
  split at hok
  · cases hok
  · split at hok
    · cases hok
    · split at hok
      · cases hok
      · obtain ⟨added, h1, h2⟩ :=
          processTasks_sublist e.data.tasks _ ff names hok hnames
        rw [h1]
        simpa [Factfile.new] using h2

/-- C9: the graph's descriptive payload comes from the canonical
re-serialization of the decoded envelope (templated when a context is
present): any two raw documents decoding to the same envelope produce the
same stored payload, and that payload is the (possibly templated)
canonical text. -/
theorem canonical_payload
    (dec : String → Except String SelfDescribingJson)
    (enc : SelfDescribingJson → Except String String)
    (s1 s2 : String) (conf : Option SubstitutionContext) (ov : OverrideResultMappings)
    (e : SelfDescribingJson) (compact : String) (ff1 ff2 : Factfile)
    (h1 : dec s1 = .ok e) (h2 : dec s2 = .ok e) (henc : enc e = .ok compact)
    (hp1 : parse_valid_json dec enc s1 conf ov = .ok ff1)
    (hp2 : parse_valid_json dec enc s2 conf ov = .ok ff2) :
    ff1.raw = ff2.raw ∧ decorateOpt conf compact = .ok ff1.raw := by
  rw [parse_valid_json_ok_eq h1 henc] at hp1
  rw [parse_valid_json_ok_eq h2 henc] at hp2
  cases hfc : decorateOpt conf compact with
  | error er =>
    simp only [hfc] at hp1
    cases hp1
  | ok fc =>
    simp only [hfc] at hp1 hp2
    cases hfn : decorateOpt conf e.data.name with
    | error er =>
      simp only [hfn] at hp1
      cases hp1
    | ok fn =>
      simp only [hfn] at hp1 hp2
      have r1 := (processTasks_raw_name e.data.tasks _ ff1 hp1).1
      have r2 := (processTasks_raw_name e.data.tasks _ ff2 hp2).1
      constructor
      · rw [r1, r2]
      · rw [r1]
        rfl

/-- C10: the override's own exit-code sets are never validated: for any
`cj` and `te` — including an empty or overlapping pair — parsing a
document whose declared per-task policies are valid succeeds under
`All ⟨cj, te⟩` and installs exactly `(cj, te)` on every graph task. -/
theorem override_sets_never_validated
    (dec : String → Except String SelfDescribingJson)
    (enc : SelfDescribingJson → Except String String)
    (file : String) (e : SelfDescribingJson) (compact : String)
    (cj te : List Int)
    (hdec : dec file = .ok e) (henc : enc e = .ok compact)
    (hvalid : ∀ t ∈ e.data.tasks, policyValidB t = true) :
    ∃ ff, parse_valid_json dec enc file none (.All ⟨cj, te⟩) = .ok ff ∧
      ∀ gt ∈ ff.tasks, gt.continue_mappings = cj ∧ gt.terminate_mappings = te := by
  rw [parse_valid_json_none_eq hdec henc]
  obtain ⟨ff, hff⟩ := processTasks_none_ok e.data.tasks hvalid
    (Factfile.new compact e.data.name)
  refine ⟨ff, hff, ?_⟩
  have := processTasks_all_mappings ⟨cj, te⟩ e.data.tasks _ ff hff
    (by intro gt hgt; simp [Factfile.new] at hgt)
  intro gt hgt
  exact ⟨(this gt hgt).2, (this gt hgt).1⟩

/-- C7 counterexample: the single wrapped error message of `parse_str` is
`'<label>' is not a valid factotum factfile: <cause>` — at a concrete
failing validation it is not the `is not a valid job document` form the
claim quotes. -/
theorem error_message_form_counterexample :
    parse_str (fun _ => .error "boom") (fun _ => .error "nodecode")
      (fun _ => .error "noencode") "x" "f" none .None
      = .error "'f' is not a valid factotum factfile: boom" ∧
    ("'f' is not a valid factotum factfile: boom" : String) ≠
      "f is not a valid job document: boom" ∧
    ("'f' is not a valid factotum factfile: boom" : String) ≠
      "'f' is not a valid job document: boom" :=
  ⟨rfl, by decide, by decide⟩

/-- C7 (amended): every failure of `parse_str` — schema validation,
decoding, or assembly — reaches the caller as the single message
`'<source_label>' is not a valid factotum factfile: <cause>`, where the
cause is the failing stage's error text. -/
theorem parse_str_wraps_every_error
    (validate : String → Except String Unit)
    (dec : String → Except String SelfDescribingJson)
    (enc : SelfDescribingJson → Except String String)
    (json from_filename : String) (env : Option SubstitutionContext)
    (overrides : OverrideResultMappings) :
    (∃ ff, parse_str validate dec enc json from_filename env overrides = .ok ff) ∨
    (∃ cause, parse_str validate dec enc json from_filename env overrides =
      .error ("'" ++ from_filename ++ "' is not a valid factotum factfile: " ++ cause)) := by
  unfold parse_str
  cases validate json with
  | error msg => exact Or.inr ⟨msg, rfl⟩
  | ok u =>
    cases parse_valid_json dec enc json env overrides with
    | error msg => exact Or.inr ⟨msg, rfl⟩
    | ok ff => exact Or.inl ⟨ff, rfl⟩

/-! ### Concrete inputs for the witnesses -/

/-- A task whose continue and terminate sets intersect (exit code 1). -/
def conflictTask : FactfileTaskFormat := ⟨"t1", "shell", "c", [], [], ⟨[1], [0, 1]⟩⟩

/-- A one-task document built around `conflictTask`. -/
def conflictEnvelope : SelfDescribingJson := ⟨"s", ⟨"j", [conflictTask]⟩⟩

/-- A task declaring no continue exit codes at all. -/
def emptyContTask : FactfileTaskFormat := ⟨"t1", "shell", "c", [], [], ⟨[1], []⟩⟩

/-- A one-task document built around `emptyContTask`. -/
def emptyContEnvelope : SelfDescribingJson := ⟨"s", ⟨"j", [emptyContTask]⟩⟩

/-- A two-task document (task `b` depends on task `a`) whose declared
policies are both valid. -/
def validJob : SelfDescribingJson :=
  ⟨"s", ⟨"j", [⟨"a", "shell", "c", [], [], ⟨[], [0]⟩⟩,
               ⟨"b", "shell", "c", [], ["a"], ⟨[], [0]⟩⟩]⟩⟩

/-- The graph that `parse_valid_json` builds from `validJob` with no
context and no override. -/
def orderedResult : Factfile :=
  ⟨"can", "j", [⟨"a", [], "shell", "c", [], [], [0]⟩,
                ⟨"b", ["a"], "shell", "c", [], [], [0]⟩]⟩

/-- A one-task document whose every string field carries placeholder
syntax. -/
def placeholderJob : SelfDescribingJson :=
  ⟨"s", ⟨"job-${region}", [⟨"t-${x}", "shell", "run ${env}", ["--v=${v}"], [],
    ⟨[], [0]⟩⟩]⟩⟩

/-- A minimal valid one-task document. -/
def payloadJob : SelfDescribingJson := ⟨"s", ⟨"j", [⟨"a", "shell", "c", [], [], ⟨[], [0]⟩⟩]⟩⟩

/-- The graph that `parse_valid_json` builds from `payloadJob` with no
context and no override. -/
def payloadResult : Factfile := ⟨"can", "j", [⟨"a", [], "shell", "c", [], [], [0]⟩]⟩

/-- C3 witness: the conflicting one-task document fails — also under an
override — with the conflicting-actions message naming `t1`. -/
theorem conflicting_policy_rejected_witness :
    (∃ msg, parse_valid_json (fun _ => .ok conflictEnvelope) (fun _ => .ok "can") "x"
      none (.All ⟨[7], [8]⟩) = .error msg) ∧
    parse_valid_json (fun _ => .ok conflictEnvelope) (fun _ => .ok "can") "x"
      none (.All ⟨[7], [8]⟩) = .error (conflictMsg conflictTask.name) :=
  conflicting_policy_rejected _ _ "x" none (.All ⟨[7], [8]⟩) conflictEnvelope "can"
    [] [] conflictTask rfl rfl (by decide) (by simp) rfl

/-- C4 witness: the empty-continuation document fails — even under an
override whose own `continue_job` is non-empty — with the
no-way-to-continue message naming `t1`. -/
theorem empty_continuation_rejected_witness :
    (∃ msg, parse_valid_json (fun _ => .ok emptyContEnvelope) (fun _ => .ok "can") "x"
      none (.All ⟨[0], []⟩) = .error msg) ∧
    parse_valid_json (fun _ => .ok emptyContEnvelope) (fun _ => .ok "can") "x"
      none (.All ⟨[0], []⟩) = .error (emptyMsg emptyContTask.name) :=
  empty_continuation_rejected _ _ "x" none (.All ⟨[0], []⟩) emptyContEnvelope "can"
    [] [] emptyContTask rfl rfl rfl (by simp) rfl

/-- C5 witness: under override `All ⟨[3], [4]⟩` the valid two-task document
parses and both graph tasks carry the override's sets. -/
theorem override_all_precedence_witness :
    ∃ ff, parse_valid_json (fun _ => .ok validJob) (fun _ => .ok "can") "x" none
      (.All ⟨[3], [4]⟩) = .ok ff ∧
      ∀ gt ∈ ff.tasks, gt.terminate_mappings = [4] ∧ gt.continue_mappings = [3] :=
  override_all_precedence _ _ "x" validJob "can" ⟨[3], [4]⟩ rfl rfl (by decide)

/-- C6 witness: the placeholder-laden document, parsed with no context,
only ever fails with a policy message and on success passes every string
field through verbatim. -/
theorem no_context_no_templating_witness :
    (∀ msg, parse_valid_json (fun _ => .ok placeholderJob) (fun _ => .ok "can") "x" none
      .None = .error msg →
      ∃ dt ∈ placeholderJob.data.tasks, msg = emptyMsg dt.name ∨ msg = conflictMsg dt.name) ∧
    (∀ ff, parse_valid_json (fun _ => .ok placeholderJob) (fun _ => .ok "can") "x" none
      .None = .ok ff →
      ff.raw = "can" ∧ ff.name = placeholderJob.data.name ∧
      ∀ gt ∈ ff.tasks, ∃ dt ∈ placeholderJob.data.tasks,
        gt.name = dt.name ∧ gt.executor = dt.executor ∧ gt.command = dt.command ∧
        gt.arguments = dt.arguments ∧ gt.depends_on = dt.dependsOn) :=
  no_context_no_templating _ _ "x" .None placeholderJob "can" rfl rfl

/-- C8 witness: the graph built from the two-task document lists its task
names as a sublist of the document order `a`, `b`. -/
theorem tasks_in_document_order_witness :
    (orderedResult.tasks.map FactfileTask.name).Sublist ["a", "b"] :=
  tasks_in_document_order (fun _ => .ok validJob) (fun _ => .ok "can") "x" none .None
    validJob orderedResult ["a", "b"] rfl rfl rfl

/-- C9 witness: two distinct raw texts decoding to the same envelope give
graphs with the same payload, namely the canonical compact text. -/
theorem canonical_payload_witness :
    payloadResult.raw = payloadResult.raw ∧
    decorateOpt none "can" = .ok payloadResult.raw :=
  canonical_payload (fun _ => .ok payloadJob) (fun _ => .ok "can") "one" "two" none .None
    payloadJob "can" payloadResult payloadResult rfl rfl rfl rfl rfl

/-- C10 witness: an override with an *empty* `continue_job` is accepted
unchecked: parsing succeeds and installs `([], [0])` on every task. -/
theorem override_sets_never_validated_witness :
    ∃ ff, parse_valid_json (fun _ => .ok validJob) (fun _ => .ok "can") "x" none
      (.All ⟨[], [0]⟩) = .ok ff ∧
      ∀ gt ∈ ff.tasks, gt.continue_mappings = [] ∧ gt.terminate_mappings = [0] :=
  override_sets_never_validated _ _ "x" validJob "can" [] [0] rfl rfl (by decide)

end FactotumParser
